/-
  Verification of the guitarfx_rust DSP core against its specification.

  Shallow embedding of src/src/dsp/convolution.rs, cabinet.rs, filters.rs and
  distortion.rs.  Audio samples (Rust f32) are modelled as exact rationals (ℚ);
  f32 rounding is not modelled.  The realfft library (an external dependency,
  not part of this repository) provides unnormalized forward and inverse real
  FFTs; its mathematical semantics is used here: a forward FFT followed by a
  pointwise complex product with a stored chunk spectrum followed by an
  unnormalized inverse FFT equals fft_size times the cyclic convolution of the
  two zero-padded time-domain sequences (convolution theorem).  Accordingly,
  IR partitions are stored in time domain (zero-padded to fft_size), which is
  an information-preserving representation of the spectra the Rust code stores.
-/
import Mathlib

/- Batteries seals the rational arithmetic operations; unsealing them lets
concrete states of the embedded programs be evaluated by the decide tactic. -/
unseal Rat.add Rat.mul Rat.sub Rat.inv Rat.ofScientific

/-- Splits a list into consecutive chunks of size n (models Rust slice::chunks;
the last chunk may be shorter).  Fuel-based recursion; fuel = length suffices
whenever n is at least 1. -/
def chunkAux (n : ℕ) : ℕ → List ℚ → List (List ℚ)
  | 0, _ => []
  | _, [] => []
  | fuel + 1, l => l.take n :: chunkAux n fuel (l.drop n)

/-- Splits a list into consecutive chunks of size n. -/
def chunkList (n : ℕ) (l : List ℚ) : List (List ℚ) :=
  chunkAux n l.length l

/-- Zero-pads a list on the right to length m (models copying a chunk into a
zeroed buffer of length m). -/
def padTo (m : ℕ) (l : List ℚ) : List ℚ :=
  l ++ List.replicate (m - l.length) 0

/-- Entry k of the length-n cyclic convolution of two sequences (lists read
with default 0 beyond their length). -/
def cyclicConvAt (n : ℕ) (a b : List ℚ) (k : ℕ) : ℚ :=
  ((List.range n).map fun j => a.getD j 0 * b.getD ((n + k - j) % n) 0).sum

/-- Models Rust usize::is_power_of_two: true exactly when n = 2 ^ k for some k.
Bounded search is complete because k < 2 ^ k. -/
def is_power_of_two (n : ℕ) : Bool :=
  (List.range (n + 1)).any fun k => n == 2 ^ k

/-- Error variants of the convolution engine (convolution.rs, ConvolutionError). -/
inductive ConvolutionError where
  | EmptyImpulseResponse
  | ImpulseResponseTooLong
  | FftError
  | InvalidBlockSize
deriving DecidableEq, Repr

/-- State of PartitionedConvolution (convolution.rs).  The fft_planner and the
pre-allocated scratch buffers fft_scratch / freq_buffer are implementation
details of the FFT library calls and carry no observable state between calls
(both are fully overwritten before use in process_block), so they are not
part of the model.  ir_partitions holds each zero-padded time-domain IR chunk,
representing the spectrum the Rust code stores for it (see header comment). -/
structure PartitionedConvolution where
  block_size : ℕ
  fft_size : ℕ
  ir_partitions : List (List ℚ)
  input_buffer : List ℚ
  overlap_buffer : List ℚ
  buffer_position : ℕ
deriving DecidableEq, Repr

namespace PartitionedConvolution

/-- Models PartitionedConvolution::new.  The Rust constructor asserts that
block_size is a power of two and panics otherwise; the panic is modelled as
none. -/
def new (block_size : ℕ) : Option PartitionedConvolution :=
  if is_power_of_two block_size then
    some { block_size := block_size
           fft_size := block_size * 2
           ir_partitions := []
           input_buffer := []
           overlap_buffer := List.replicate block_size 0
           buffer_position := 0 }
  else
    none

/-- Models PartitionedConvolution::load_impulse_response.  Returns the Result
together with the state after the call (Rust mutates self in place; on the two
validation errors it returns before any mutation).  The FFT of each chunk is
represented by the zero-padded chunk itself; realfft plan_fft_forward cannot
fail on the fixed, matching buffer sizes used here, so the FftError path is
unreachable in the model. -/
def load_impulse_response (self : PartitionedConvolution) (impulse_response : List ℚ) :
    Except ConvolutionError Unit × PartitionedConvolution :=
  if impulse_response.isEmpty then
    (.error .EmptyImpulseResponse, self)
  else if 96000 < impulse_response.length then
    (.error .ImpulseResponseTooLong, self)
  else
    (.ok (), { self with
      ir_partitions :=
        (chunkList self.block_size impulse_response).map fun chunk => padTo self.fft_size chunk
      input_buffer := []
      overlap_buffer := List.replicate self.block_size 0
      buffer_position := 0 })

/-- Models PartitionedConvolution::process_block.  The FFT / pointwise complex
multiply-accumulate over partitions / inverse FFT sequence is modelled through
the convolution theorem for the unnormalized realfft transforms: the inverse
transform output (fft_scratch) equals fft_size times the sum over partitions
of the cyclic convolution of the zero-padded input block with that partition.
The two copy loops at the end are reproduced exactly as written: the first
adds the first block_size scratch samples into the overlap buffer (guarded by
the overlap length), the second then overwrites overlap slot i with scratch
slot i + block_size (guarded by the scratch length; writes only existing
overlap slots, which is all of 0..block_size under the length invariant kept
by every constructor of the state). -/
def process_block (self : PartitionedConvolution) : PartitionedConvolution :=
  if self.ir_partitions.isEmpty then
    self
  else
    let padded_input := padTo self.fft_size self.input_buffer
    let fft_scratch := (List.range self.fft_size).map fun k =>
      (self.fft_size : ℚ) *
        ((self.ir_partitions.map fun p => cyclicConvAt self.fft_size padded_input p k).sum)
    let overlap1 := self.overlap_buffer.mapIdx fun i v =>
      if i < self.block_size then v + fft_scratch.getD i 0 else v
    let overlap2 := overlap1.mapIdx fun i v =>
      if i < self.block_size ∧ i + self.block_size < fft_scratch.length then
        fft_scratch.getD (i + self.block_size) 0
      else v
    { self with overlap_buffer := overlap2, buffer_position := 0 }

/-- Models PartitionedConvolution::process_sample: returns the output sample
and the state after the call. -/
def process_sample (self : PartitionedConvolution) (input : ℚ) :
    ℚ × PartitionedConvolution :=
  if self.input_buffer.length < self.block_size then
    let pushed := { self with input_buffer := self.input_buffer ++ [input] }
    if self.buffer_position < self.overlap_buffer.length then
      (self.overlap_buffer.getD self.buffer_position 0,
       { pushed with buffer_position := self.buffer_position + 1 })
    else
      (0, pushed)
  else
    let blocked := self.process_block
    let shifted := { blocked with
      input_buffer := blocked.input_buffer.drop 1 ++ [input]
      buffer_position := 1 }
    (blocked.overlap_buffer.getD 0 0, shifted)

/-- Models PartitionedConvolution::reset. -/
def reset (self : PartitionedConvolution) : PartitionedConvolution :=
  { self with
    input_buffer := []
    overlap_buffer := List.replicate self.block_size 0
    buffer_position := 0 }

/-- Models PartitionedConvolution::get_latency. -/
def get_latency (self : PartitionedConvolution) : ℕ :=
  self.block_size

/-- Feeds a list of input samples one by one through process_sample and
collects the outputs. -/
def run : PartitionedConvolution → List ℚ → List ℚ
  | _, [] => []
  | st, x :: xs =>
    let p := st.process_sample x
    p.1 :: run p.2 xs

end PartitionedConvolution

/-- Concrete engine state equal to PartitionedConvolution.new 4 (used by
concrete evaluations below). -/
def conv4 : PartitionedConvolution :=
  { block_size := 4
    fft_size := 8
    ir_partitions := []
    input_buffer := []
    overlap_buffer := List.replicate 4 0
    buffer_position := 0 }

/-- State of BiquadFilter (filters.rs): five coefficients and the two direct
form II transposed state registers. -/
structure BiquadFilter where
  b0 : ℚ
  b1 : ℚ
  b2 : ℚ
  a1 : ℚ
  a2 : ℚ
  z1 : ℚ
  z2 : ℚ
deriving DecidableEq, Repr

namespace BiquadFilter

/-- Models BiquadFilter::process: output plus updated state. -/
def process (self : BiquadFilter) (input : ℚ) : ℚ × BiquadFilter :=
  let output := self.b0 * input + self.z1
  (output,
   { self with
     z1 := self.b1 * input - self.a1 * output + self.z2
     z2 := self.b2 * input - self.a2 * output })

/-- Models BiquadFilter::reset: zeroes the state registers only. -/
def reset (self : BiquadFilter) : BiquadFilter :=
  { self with z1 := 0, z2 := 0 }

end BiquadFilter

/-- State of AsymmetricClipper (distortion.rs).  The constructor fills
lookup_table with 1024 samples of the arctangent-based asymmetric waveshape
over the input domain from -4 to 4, and sets table_size = 1024 and
input_scale = 1024 / 8 = 128; the table entries themselves are transcendental
reals, so the table contents are left abstract here and the structural facts
established by the constructor (table_size = 1024, input_scale = 128, table
length = 1024) appear as hypotheses of the theorems about process. -/
structure AsymmetricClipper where
  lookup_table : List ℚ
  table_size : ℕ
  input_scale : ℚ

namespace AsymmetricClipper

/-- Models AsymmetricClipper::process.  The Rust cast of the nonnegative f32
table position to usize truncates toward zero, modelled as Int.toNat of the
floor (which also reproduces the saturation of negative values to 0). -/
def process (self : AsymmetricClipper) (input drive : ℚ) : ℚ :=
  let driven_input := max (-4) (min 4 (input * drive))
  let table_pos := (driven_input + 4) * self.input_scale
  let table_index := (⌊table_pos⌋).toNat
  let frac := table_pos - (table_index : ℚ)
  if self.table_size - 1 ≤ table_index then
    self.lookup_table.getD (self.table_size - 1) 0
  else
    let y0 := self.lookup_table.getD table_index 0
    let y1 := self.lookup_table.getD (table_index + 1) 0
    y0 + frac * (y1 - y0)

end AsymmetricClipper

/-- Cabinet identities (cabinet.rs, CabinetType). -/
inductive CabinetType where
  | Marshall4x12V30
  | FenderTwin2x12
  | VoxAC30Blue
  | Mesa4x12Recto
  | Direct
deriving DecidableEq, Repr

/-- Built-in Marshall 4x12 V30 impulse response (cabinet.rs,
MARSHALL_4X12_V30_IR): 33 leading nonzero samples followed by zeros, 256
samples in total. -/
def MARSHALL_4X12_V30_IR : List ℚ :=
  [1.0, 0.85, 0.72, 0.61, 0.52, 0.44, 0.37, 0.32, 0.27, 0.23, 0.20, 0.17,
   0.15, 0.13, 0.11, 0.09, 0.08, 0.07, 0.06, 0.05, 0.04, 0.04, 0.03, 0.03,
   0.02, 0.02, 0.02, 0.01, 0.01, 0.01, 0.01, 0.01, 0.01] ++ List.replicate 223 0

/-- Built-in Fender Twin 2x12 impulse response (cabinet.rs,
FENDER_TWIN_2X12_IR): 34 leading nonzero samples followed by zeros. -/
def FENDER_TWIN_2X12_IR : List ℚ :=
  [0.9, 0.78, 0.68, 0.59, 0.51, 0.44, 0.38, 0.33, 0.29, 0.25, 0.22, 0.19,
   0.17, 0.15, 0.13, 0.11, 0.10, 0.08, 0.07, 0.06, 0.05, 0.05, 0.04, 0.04,
   0.03, 0.03, 0.02, 0.02, 0.02, 0.01, 0.01, 0.01, 0.01, 0.01] ++
  List.replicate 222 0

/-- Built-in Vox AC30 Blue impulse response (cabinet.rs, VOX_AC30_BLUE_IR):
40 leading nonzero samples followed by zeros. -/
def VOX_AC30_BLUE_IR : List ℚ :=
  [0.85, 0.76, 0.68, 0.61, 0.55, 0.49, 0.44, 0.40, 0.36, 0.32, 0.29, 0.26,
   0.24, 0.21, 0.19, 0.17, 0.16, 0.14, 0.13, 0.11, 0.10, 0.09, 0.08, 0.07,
   0.06, 0.06, 0.05, 0.04, 0.04, 0.03, 0.03, 0.03, 0.02, 0.02, 0.02, 0.01,
   0.01, 0.01, 0.01, 0.01] ++ List.replicate 216 0

/-- Built-in Mesa 4x12 Recto impulse response (cabinet.rs,
MESA_4X12_RECTO_IR): 38 leading nonzero samples followed by zeros. -/
def MESA_4X12_RECTO_IR : List ℚ :=
  [0.8, 0.71, 0.63, 0.56, 0.50, 0.44, 0.39, 0.35, 0.31, 0.28, 0.25, 0.22,
   0.20, 0.18, 0.16, 0.14, 0.13, 0.11, 0.10, 0.09, 0.08, 0.07, 0.06, 0.05,
   0.05, 0.04, 0.04, 0.03, 0.03, 0.02, 0.02, 0.02, 0.02, 0.01, 0.01, 0.01,
   0.01, 0.01] ++ List.replicate 218 0

/-- State of CabinetSimulator (cabinet.rs).  The HashMap of pre-loaded
impulse responses is modelled as a function to Option. -/
structure CabinetSimulator where
  convolution_engine : PartitionedConvolution
  current_cabinet : CabinetType
  cabinet_impulses : CabinetType → Option (List ℚ)
  mix : ℚ
  sample_rate : ℚ

namespace CabinetSimulator

/-- Models CabinetSimulator::load_cabinet_impulses: inserts the four built-in
impulse responses into the map. -/
def load_cabinet_impulses (self : CabinetSimulator) : CabinetSimulator :=
  { self with cabinet_impulses := fun ct =>
      match ct with
      | .Marshall4x12V30 => some MARSHALL_4X12_V30_IR
      | .FenderTwin2x12 => some FENDER_TWIN_2X12_IR
      | .VoxAC30Blue => some VOX_AC30_BLUE_IR
      | .Mesa4x12Recto => some MESA_4X12_RECTO_IR
      | .Direct => self.cabinet_impulses .Direct }

/-- Models CabinetSimulator::reset. -/
def reset (self : CabinetSimulator) : CabinetSimulator :=
  { self with convolution_engine := self.convolution_engine.reset }

/-- Models CabinetSimulator::load_cabinet: returns the Result together with
the state after the call.  In Direct mode the convolution engine is reset and
no impulse response is loaded; otherwise the impulse response is looked up
and handed to the engine, propagating any load error (on error the cabinet
identity is left unchanged, mirroring the early return of the question-mark
operator). -/
def load_cabinet (self : CabinetSimulator) (cabinet_type : CabinetType) :
    Except ConvolutionError Unit × CabinetSimulator :=
  if cabinet_type = .Direct then
    (.ok (), { self with
      current_cabinet := cabinet_type
      convolution_engine := self.convolution_engine.reset })
  else
    match self.cabinet_impulses cabinet_type with
    | some impulse_response =>
      match self.convolution_engine.load_impulse_response impulse_response with
      | (.ok _, engine) =>
        (.ok (), { self with convolution_engine := engine, current_cabinet := cabinet_type })
      | (.error e, engine) =>
        (.error e, { self with convolution_engine := engine })
    | none => (.error .EmptyImpulseResponse, self)

/-- Models CabinetSimulator::new.  The inner PartitionedConvolution::new
assertion makes construction partial, hence the Option; a failure of the
default cabinet load is only logged in Rust, so the state after the load
attempt is returned either way. -/
def new (block_size : ℕ) (sample_rate : ℚ) : Option CabinetSimulator :=
  (PartitionedConvolution.new block_size).map fun engine =>
    let simulator : CabinetSimulator :=
      { convolution_engine := engine
        current_cabinet := .Marshall4x12V30
        cabinet_impulses := fun _ => none
        mix := 1
        sample_rate := sample_rate }
    let simulator := simulator.load_cabinet_impulses
    (simulator.load_cabinet .Marshall4x12V30).2

/-- Models CabinetSimulator::process_sample: Direct mode is a passthrough,
otherwise the convolution output is blended with the dry input by mix. -/
def process_sample (self : CabinetSimulator) (input : ℚ) : ℚ × CabinetSimulator :=
  match self.current_cabinet with
  | .Direct => (input, self)
  | _ =>
    let p := self.convolution_engine.process_sample input
    let wet_signal := p.1
    let dry_signal := input * (1 - self.mix)
    let cabinet_signal := wet_signal * self.mix
    (dry_signal + cabinet_signal, { self with convolution_engine := p.2 })

/-- Models CabinetSimulator::set_mix via f32::clamp(0.0, 1.0). -/
def set_mix (self : CabinetSimulator) (mix : ℚ) : CabinetSimulator :=
  { self with mix := if mix < 0 then 0 else if 1 < mix then 1 else mix }

/-- Models CabinetSimulator::get_current_cabinet. -/
def get_current_cabinet (self : CabinetSimulator) : CabinetType :=
  self.current_cabinet

/-- Models CabinetSimulator::get_latency. -/
def get_latency (self : CabinetSimulator) : ℕ :=
  match self.current_cabinet with
  | .Direct => 0
  | _ => self.convolution_engine.get_latency

end CabinetSimulator

/-- Concrete simulator in Direct mode (used by concrete evaluations below). -/
def simDirect : CabinetSimulator :=
  { convolution_engine := conv4
    current_cabinet := .Direct
    cabinet_impulses := fun _ => none
    mix := 1/2
    sample_rate := 48000 }

/-- Concrete simulator on the Marshall cabinet with mix 0 (used by concrete
evaluations below). -/
def simMarshallMix0 : CabinetSimulator :=
  { convolution_engine := conv4
    current_cabinet := .Marshall4x12V30
    cabinet_impulses := fun _ => none
    mix := 0
    sample_rate := 48000 }

/-- Helper: load_cabinet never changes the mix field. -/
theorem load_cabinet_preserves_mix (sim : CabinetSimulator) (ct : CabinetType) :
    ((sim.load_cabinet ct).2).mix = sim.mix := by
  unfold CabinetSimulator.load_cabinet
  split_ifs with h
  · rfl
  · cases hm : sim.cabinet_impulses ct with
    | none => rfl
    | some ir =>
      rcases hl : sim.convolution_engine.load_impulse_response ir with ⟨r, engine⟩
      cases r <;> simp [hl]

/-- Helper: process_sample never changes the mix field. -/
theorem process_sample_preserves_mix (sim : CabinetSimulator) (x : ℚ) :
    ((sim.process_sample x).2).mix = sim.mix := by
  unfold CabinetSimulator.process_sample
  cases sim.current_cabinet <;> rfl

/-- Claim C2: load_impulse_response returns EmptyImpulseResponse exactly on an
empty impulse response, returns ImpulseResponseTooLong exactly when the length
exceeds 96000 samples, and on every error leaves the engine state (stored
partitions and runtime buffers) unmodified. -/
theorem load_impulse_response_validation (st : PartitionedConvolution) (ir : List ℚ) :
    ((st.load_impulse_response ir).1 = .error .EmptyImpulseResponse ↔ ir = []) ∧
    ((st.load_impulse_response ir).1 = .error .ImpulseResponseTooLong ↔ 96000 < ir.length) ∧
    (∀ e, (st.load_impulse_response ir).1 = .error e → (st.load_impulse_response ir).2 = st) := by
  unfold PartitionedConvolution.load_impulse_response
  split_ifs with h1 h2 <;>
    refine ⟨?_, ?_, ?_⟩ <;>
      simp_all [List.isEmpty_iff]

/-- Witness for C2 at the impulse responses from the spec examples: the empty
impulse response and a 100000-sample one. -/
theorem load_impulse_response_validation_witness :
    (conv4.load_impulse_response []).1 = .error .EmptyImpulseResponse ∧
    (conv4.load_impulse_response (List.replicate 100000 1)).1 = .error .ImpulseResponseTooLong ∧
    (conv4.load_impulse_response (List.replicate 100000 1)).2 = conv4 := by
  have h := load_impulse_response_validation conv4 (List.replicate 100000 1)
  have hlong : (96000 : ℕ) < (List.replicate 100000 (1:ℚ)).length := by
    simp only [List.length_replicate]
    omega
  exact ⟨(load_impulse_response_validation conv4 []).1.mpr rfl,
         h.2.1.mpr hlong, h.2.2 _ (h.2.1.mpr hlong)⟩

/-- Claim C3: with the Direct cabinet active, CabinetSimulator::process_sample
returns its input unchanged, for every input, mix value and engine state. -/
theorem direct_process_sample_passthrough (sim : CabinetSimulator) (x : ℚ)
    (h : sim.current_cabinet = .Direct) : (sim.process_sample x).1 = x := by
  unfold CabinetSimulator.process_sample
  rw [h]

/-- Witness for C3 on a concrete Direct-mode simulator. -/
theorem direct_process_sample_passthrough_witness :
    (simDirect.process_sample 5).1 = 5 :=
  direct_process_sample_passthrough simDirect 5 rfl

/-- Claim C4: get_latency is 0 with the Direct cabinet active and equals the
configured block size with any other cabinet active (the convolution engine
latency being exactly its block size). -/
theorem get_latency_direct_vs_cabinet (sim : CabinetSimulator) :
    (sim.current_cabinet = .Direct → sim.get_latency = 0) ∧
    (sim.current_cabinet ≠ .Direct →
      sim.get_latency = sim.convolution_engine.block_size) := by
  constructor
  · intro h
    unfold CabinetSimulator.get_latency
    rw [h]
  · intro h
    unfold CabinetSimulator.get_latency
    cases hc : sim.current_cabinet <;>
      simp_all [PartitionedConvolution.get_latency]

/-- Witness for C4 on concrete Direct and Marshall simulators with block size
4. -/
theorem get_latency_direct_vs_cabinet_witness :
    simDirect.get_latency = 0 ∧ simMarshallMix0.get_latency = 4 := by
  refine ⟨(get_latency_direct_vs_cabinet simDirect).1 rfl, ?_⟩
  have h := (get_latency_direct_vs_cabinet simMarshallMix0).2 (by decide)
  simpa using h

/-- Claim C5: with mix = 0 the output of CabinetSimulator::process_sample is
exactly the dry input, for every input, every active cabinet and every engine
state. -/
theorem mix_zero_process_sample_dry (sim : CabinetSimulator) (x : ℚ)
    (h : sim.mix = 0) : (sim.process_sample x).1 = x := by
  unfold CabinetSimulator.process_sample
  cases hc : sim.current_cabinet <;> simp [h]

/-- Witness for C5 on a concrete Marshall simulator with mix 0. -/
theorem mix_zero_process_sample_dry_witness :
    (simMarshallMix0.process_sample 7).1 = 7 :=
  mix_zero_process_sample_dry simMarshallMix0 7 rfl

/-- Claim C6: the mix invariant 0 ≤ mix ≤ 1 holds after construction and is
preserved by every CabinetSimulator operation; set_mix clamps out-of-range
arguments, so set_mix(-0.5) yields mix 0 and set_mix(1.5) yields mix 1. -/
theorem mix_invariant_and_clamp :
    (∀ (bs : ℕ) (sr : ℚ) (sim : CabinetSimulator),
       CabinetSimulator.new bs sr = some sim → 0 ≤ sim.mix ∧ sim.mix ≤ 1) ∧
    (∀ (sim : CabinetSimulator) (m : ℚ),
       0 ≤ (sim.set_mix m).mix ∧ (sim.set_mix m).mix ≤ 1) ∧
    (∀ (sim : CabinetSimulator) (x : ℚ), 0 ≤ sim.mix ∧ sim.mix ≤ 1 →
       0 ≤ ((sim.process_sample x).2).mix ∧ ((sim.process_sample x).2).mix ≤ 1) ∧
    (∀ (sim : CabinetSimulator) (ct : CabinetType), 0 ≤ sim.mix ∧ sim.mix ≤ 1 →
       0 ≤ ((sim.load_cabinet ct).2).mix ∧ ((sim.load_cabinet ct).2).mix ≤ 1) ∧
    (∀ sim : CabinetSimulator, 0 ≤ sim.mix ∧ sim.mix ≤ 1 →
       0 ≤ sim.reset.mix ∧ sim.reset.mix ≤ 1) ∧
    (∀ sim : CabinetSimulator, (sim.set_mix (-(1/2))).mix = 0) ∧
    (∀ sim : CabinetSimulator, (sim.set_mix (3/2)).mix = 1) := by
  refine ⟨?_, ?_, ?_, ?_, ?_, ?_, ?_⟩
  · intro bs sr sim h
    unfold CabinetSimulator.new at h
    cases hp : PartitionedConvolution.new bs with
    | none => rw [hp] at h; simp at h
    | some engine =>
      rw [hp] at h
      simp only [Option.map_some', Option.some.injEq] at h
      subst h
      rw [load_cabinet_preserves_mix]
      norm_num [CabinetSimulator.load_cabinet_impulses]
  · intro sim m
    unfold CabinetSimulator.set_mix
    split_ifs with h1 h2
    · exact ⟨le_refl 0, by norm_num⟩
    · exact ⟨by norm_num, le_refl 1⟩
    · exact ⟨le_of_not_lt h1, le_of_not_lt h2⟩
  · intro sim x h
    rw [process_sample_preserves_mix]
    exact h
  · intro sim ct h
    rw [load_cabinet_preserves_mix]
    exact h
  · intro sim h
    exact h
  · intro sim
    unfold CabinetSimulator.set_mix
    norm_num
  · intro sim
    unfold CabinetSimulator.set_mix
    norm_num

/-- Witness for C6 at concrete simulators and mix values. -/
theorem mix_invariant_and_clamp_witness :
    (0 ≤ ((CabinetSimulator.new 4 0).getD simDirect).mix ∧
       ((CabinetSimulator.new 4 0).getD simDirect).mix ≤ 1) ∧
    (0 ≤ (simDirect.set_mix 7).mix ∧ (simDirect.set_mix 7).mix ≤ 1) ∧
    (0 ≤ ((simMarshallMix0.process_sample 1).2).mix ∧
       ((simMarshallMix0.process_sample 1).2).mix ≤ 1) ∧
    (0 ≤ ((simMarshallMix0.load_cabinet .Direct).2).mix ∧
       ((simMarshallMix0.load_cabinet .Direct).2).mix ≤ 1) ∧
    (0 ≤ simMarshallMix0.reset.mix ∧ simMarshallMix0.reset.mix ≤ 1) ∧
    (simDirect.set_mix (-(1/2))).mix = 0 ∧
    (simDirect.set_mix (3/2)).mix = 1 := by
  have hmx : (0:ℚ) ≤ simMarshallMix0.mix ∧ simMarshallMix0.mix ≤ 1 := by
    norm_num [simMarshallMix0]
  obtain ⟨s, hs⟩ : ∃ s, CabinetSimulator.new 4 0 = some s := by
    cases h : CabinetSimulator.new 4 0 with
    | some s => exact ⟨s, rfl⟩
    | none =>
      have hc : PartitionedConvolution.new 4 = some conv4 := by decide
      rw [CabinetSimulator.new, hc] at h
      simp at h
  refine ⟨?_, mix_invariant_and_clamp.2.1 simDirect 7,
          mix_invariant_and_clamp.2.2.1 simMarshallMix0 1 hmx,
          mix_invariant_and_clamp.2.2.2.1 simMarshallMix0 .Direct hmx,
          mix_invariant_and_clamp.2.2.2.2.1 simMarshallMix0 hmx,
          mix_invariant_and_clamp.2.2.2.2.2.1 simDirect,
          mix_invariant_and_clamp.2.2.2.2.2.2 simDirect⟩
  rw [hs]
  simpa using mix_invariant_and_clamp.1 4 0 s hs

/-- Claim C7: BiquadFilter::process computes output = b0 x + z1 and updates
the registers in direct form II transposed order. -/
theorem biquad_process_df2t (f : BiquadFilter) (x : ℚ) :
    (f.process x).1 = f.b0 * x + f.z1 ∧
    (f.process x).2.z1 = f.b1 * x - f.a1 * (f.process x).1 + f.z2 ∧
    (f.process x).2.z2 = f.b2 * x - f.a2 * (f.process x).1 :=
  ⟨rfl, rfl, rfl⟩

/-- Helper: a getD read at an in-range index returns a list member. -/
theorem getD_mem_of_lt {l : List ℚ} {n : ℕ} (h : n < l.length) (d : ℚ) :
    l.getD n d ∈ l := by
  induction l generalizing n with
  | nil => simp at h
  | cons a t ih =>
    cases n with
    | zero => simp
    | succ k =>
      rw [List.getD_cons_succ]
      exact List.mem_cons_of_mem a (ih (by simpa using h))

/-- Helper: the branch structure of AsymmetricClipper::process with the local
bindings expanded. -/
theorem clipper_process_eq (c : AsymmetricClipper) (input drive : ℚ) :
    c.process input drive =
      if c.table_size - 1 ≤
          (⌊(max (-4) (min 4 (input * drive)) + 4) * c.input_scale⌋).toNat then
        c.lookup_table.getD (c.table_size - 1) 0
      else
        c.lookup_table.getD
            ((⌊(max (-4) (min 4 (input * drive)) + 4) * c.input_scale⌋).toNat) 0 +
          ((max (-4) (min 4 (input * drive)) + 4) * c.input_scale -
             (((⌊(max (-4) (min 4 (input * drive)) + 4) * c.input_scale⌋).toNat : ℚ))) *
            (c.lookup_table.getD
                ((⌊(max (-4) (min 4 (input * drive)) + 4) * c.input_scale⌋).toNat + 1) 0 -
               c.lookup_table.getD
                 ((⌊(max (-4) (min 4 (input * drive)) + 4) * c.input_scale⌋).toNat) 0) :=
  rfl

/-- Claim C8: with the table shape produced by AsymmetricClipper::new (1024
entries, input scale 128), process always returns a value between the least
and greatest table entries, and any driven input at or beyond the table's
upper bound returns exactly the last table entry. -/
theorem clipper_process_bounded (c : AsymmetricClipper) (input drive m M : ℚ)
    (hts : c.table_size = 1024) (hsc : c.input_scale = 128)
    (hlen : c.lookup_table.length = 1024)
    (hbound : ∀ y ∈ c.lookup_table, m ≤ y ∧ y ≤ M) :
    (m ≤ c.process input drive ∧ c.process input drive ≤ M) ∧
    (4 ≤ input * drive →
      c.process input drive = c.lookup_table.getD (c.table_size - 1) 0) := by
  have hmem : ∀ n : ℕ, n < 1024 →
      m ≤ c.lookup_table.getD n 0 ∧ c.lookup_table.getD n 0 ≤ M :=
    fun n hn => hbound _ (getD_mem_of_lt (by rw [hlen]; exact hn) 0)
  have hdi_lb : (-4:ℚ) ≤ max (-4) (min 4 (input * drive)) := le_max_left _ _
  have htp_nonneg : (0:ℚ) ≤ (max (-4) (min 4 (input * drive)) + 4) * c.input_scale := by
    rw [hsc]; nlinarith
  have hfl0 : 0 ≤ ⌊(max (-4) (min 4 (input * drive)) + 4) * c.input_scale⌋ :=
    Int.floor_nonneg.mpr htp_nonneg
  have hcast : (((⌊(max (-4) (min 4 (input * drive)) + 4) * c.input_scale⌋).toNat : ℚ)) =
      ((⌊(max (-4) (min 4 (input * drive)) + 4) * c.input_scale⌋ : ℤ) : ℚ) := by
    exact_mod_cast congrArg (fun z : ℤ => (z : ℚ)) (Int.toNat_of_nonneg hfl0)
  have hfrac0 : 0 ≤ (max (-4) (min 4 (input * drive)) + 4) * c.input_scale -
      ((⌊(max (-4) (min 4 (input * drive)) + 4) * c.input_scale⌋).toNat : ℚ) := by
    rw [hcast]
    linarith [Int.floor_le ((max (-4) (min 4 (input * drive)) + 4) * c.input_scale)]
  have hfrac1 : (max (-4) (min 4 (input * drive)) + 4) * c.input_scale -
      ((⌊(max (-4) (min 4 (input * drive)) + 4) * c.input_scale⌋).toNat : ℚ) ≤ 1 := by
    rw [hcast]
    linarith [Int.lt_floor_add_one ((max (-4) (min 4 (input * drive)) + 4) * c.input_scale)]
  rw [clipper_process_eq]
  set tp := (max (-4) (min 4 (input * drive)) + 4) * c.input_scale with htp
  set idx := (⌊tp⌋).toNat with hidx
  split_ifs with hsat
  · rw [hts]
    exact ⟨hmem (1024 - 1) (by norm_num), fun _ => rfl⟩
  · have hidx_lt : idx < 1023 := by
      rw [hts] at hsat; omega
    have h0 := hmem idx (by omega)
    have h1 := hmem (idx + 1) (by omega)
    constructor
    · constructor
      · nlinarith [h0.1, h0.2, h1.1, h1.2, hfrac0, hfrac1]
      · nlinarith [h0.1, h0.2, h1.1, h1.2, hfrac0, hfrac1]
    · intro h4
      exfalso
      have hdieq : max (-4) (min 4 (input * drive)) = 4 := by
        rw [min_eq_left h4]
        exact max_eq_right (by norm_num)
      have htp1024 : tp = 1024 := by
        rw [htp, hdieq, hsc]; norm_num
      have : idx = 1024 := by
        rw [hidx, htp1024]; decide
      omega

/-- Concrete clipper with an all-zero 1024-entry table (used by the concrete
evaluation below). -/
def clipZero : AsymmetricClipper :=
  { lookup_table := List.replicate 1024 0
    table_size := 1024
    input_scale := 128 }

/-- Witness for C8 on a concrete clipper and concrete inputs, including a
driven input beyond the table's upper bound. -/
theorem clipper_process_bounded_witness :
    ((0:ℚ) ≤ clipZero.process 1 1 ∧ clipZero.process 1 1 ≤ 0) ∧
    clipZero.process 4 2 = clipZero.lookup_table.getD (clipZero.table_size - 1) 0 := by
  have hb : ∀ y ∈ clipZero.lookup_table, (0:ℚ) ≤ y ∧ y ≤ 0 := by
    intro y hy
    rw [List.eq_of_mem_replicate hy]
    exact ⟨le_refl 0, le_refl 0⟩
  have hlen : clipZero.lookup_table.length = 1024 := by
    show (List.replicate 1024 (0:ℚ)).length = 1024
    rw [List.length_replicate]
  have h1 := clipper_process_bounded clipZero 1 1 0 0 rfl rfl hlen hb
  have h2 := clipper_process_bounded clipZero 4 2 0 0 rfl rfl hlen hb
  exact ⟨h1.1, h2.2 (by norm_num)⟩

/-- Helper: an out-of-list default of 0 together with all-zero entries makes
every getD read return 0. -/
theorem getD_eq_zero_of_all_zero {l : List ℚ} (h : ∀ y ∈ l, y = 0) (n : ℕ) :
    l.getD n 0 = 0 := by
  induction l generalizing n with
  | nil => simp
  | cons a t ih =>
    cases n with
    | zero => exact h a (by simp)
    | succ m =>
      rw [List.getD_cons_succ]
      exact ih (fun y hy => h y (by simp [hy])) m

/-- Helper: with no stored partitions, one process_sample call outputs 0 and
preserves both the absence of partitions and the all-zero overlap buffer. -/
theorem process_sample_no_ir (st : PartitionedConvolution) (x : ℚ)
    (hp : st.ir_partitions = []) (ho : ∀ y ∈ st.overlap_buffer, y = 0) :
    (st.process_sample x).1 = 0 ∧
    (st.process_sample x).2.ir_partitions = [] ∧
    (∀ y ∈ (st.process_sample x).2.overlap_buffer, y = 0) := by
  have hb : st.process_block = st := by
    unfold PartitionedConvolution.process_block
    simp [hp]
  unfold PartitionedConvolution.process_sample
  split_ifs with h1 h2
  · exact ⟨getD_eq_zero_of_all_zero ho _, hp, ho⟩
  · exact ⟨rfl, hp, ho⟩
  · rw [hb]
    exact ⟨getD_eq_zero_of_all_zero ho 0, hp, ho⟩

/-- Claim C9: a PartitionedConvolution that has never successfully loaded an
impulse response (no stored partitions, zeroed overlap buffer) outputs 0 for
every input sample at every position of the stream. -/
theorem no_ir_run_all_zero (st : PartitionedConvolution) (inputs : List ℚ)
    (hp : st.ir_partitions = []) (ho : ∀ y ∈ st.overlap_buffer, y = 0) :
    ∀ y ∈ st.run inputs, y = 0 := by
  induction inputs generalizing st with
  | nil =>
    intro y hy
    simp [PartitionedConvolution.run] at hy
  | cons x xs ih =>
    obtain ⟨h1, h2, h3⟩ := process_sample_no_ir st x hp ho
    intro y hy
    rw [PartitionedConvolution.run] at hy
    rcases List.mem_cons.mp hy with heq | hmem
    · rw [heq]; exact h1
    · exact ih (st.process_sample x).2 h2 h3 y hmem

/-- Witness for C9: the fifth output of a fresh block-size-4 engine fed six
nonzero samples is 0. -/
theorem no_ir_run_all_zero_witness :
    (conv4.run [1, 2, 3, 4, 5, 6]).getD 4 0 = 0 :=
  getD_eq_zero_of_all_zero
    (no_ir_run_all_zero conv4 [1, 2, 3, 4, 5, 6] rfl (by decide)) 4

/-- Helper: load_impulse_response can only fail with EmptyImpulseResponse or
ImpulseResponseTooLong, never with InvalidBlockSize. -/
theorem load_ir_ne_invalid (st : PartitionedConvolution) (ir : List ℚ) :
    (st.load_impulse_response ir).1 ≠ .error .InvalidBlockSize := by
  unfold PartitionedConvolution.load_impulse_response
  split_ifs <;> simp

/-- Helper: the executable power-of-two test agrees with the mathematical
property. -/
theorem is_power_of_two_iff (n : ℕ) :
    is_power_of_two n = true ↔ ∃ k, n = 2 ^ k := by
  unfold is_power_of_two
  rw [List.any_eq_true]
  constructor
  · rintro ⟨k, _, hb⟩
    exact ⟨k, by simpa using hb⟩
  · rintro ⟨k, rfl⟩
    refine ⟨k, List.mem_range.mpr ?_, by simp⟩
    have := Nat.lt_two_pow k
    omega

/-- Claim C10: PartitionedConvolution::new rejects (panics on) exactly the
non-power-of-two block sizes, and neither load_impulse_response nor
load_cabinet can ever return the InvalidBlockSize error variant. -/
theorem new_power_of_two_and_no_invalid_block_size :
    (∀ bs, PartitionedConvolution.new bs = none ↔ ¬ ∃ k, bs = 2 ^ k) ∧
    (∀ (st : PartitionedConvolution) (ir : List ℚ),
       (st.load_impulse_response ir).1 ≠ .error .InvalidBlockSize) ∧
    (∀ (sim : CabinetSimulator) (ct : CabinetType),
       (sim.load_cabinet ct).1 ≠ .error .InvalidBlockSize) := by
  refine ⟨fun bs => ?_, load_ir_ne_invalid, fun sim ct => ?_⟩
  · unfold PartitionedConvolution.new
    by_cases h : is_power_of_two bs = true
    · rw [if_pos h]
      simp only [reduceCtorEq, false_iff, not_not]
      exact (is_power_of_two_iff bs).mp h
    · rw [if_neg h]
      simp only [true_iff]
      intro hex
      exact h ((is_power_of_two_iff bs).mpr hex)
  · unfold CabinetSimulator.load_cabinet
    split_ifs with h
    · simp
    · cases hm : sim.cabinet_impulses ct with
      | none => simp
      | some ir =>
        rcases hl : sim.convolution_engine.load_impulse_response ir with ⟨r, engine⟩
        have := load_ir_ne_invalid sim.convolution_engine ir
        rw [hl] at this
        cases r with
        | ok u => simp [hl]
        | error e =>
          simp only [hl]
          simpa using this

/-- Witness for C10: block size 3 is rejected while a valid load on a
power-of-two engine does not produce InvalidBlockSize. -/
theorem new_power_of_two_and_no_invalid_block_size_witness :
    PartitionedConvolution.new 3 = none ∧
    (conv4.load_impulse_response [1]).1 ≠ .error .InvalidBlockSize := by
  refine ⟨(new_power_of_two_and_no_invalid_block_size.1 3).mpr ?_,
          new_power_of_two_and_no_invalid_block_size.2.1 conv4 [1]⟩
  rintro ⟨k, hk⟩
  match k, hk with
  | 0, hk => simp at hk
  | 1, hk => simp at hk
  | (m + 2), hk =>
    have h4 : 2 ^ 2 ≤ 2 ^ (m + 2) := Nat.pow_le_pow_right (by norm_num) (by omega)
    rw [← hk] at h4
    omega

/-- Claim C1 evaluation at the spec scenario (block_size 4, impulse response
a single unit sample, unit impulse input): the code emits 0 not only for the
first four samples (the declared latency) but also at sample 4 and at every
later sample, because process_block overwrites the freshly accumulated
overlap-add output with the convolution tail before anything is emitted, and
the input block is shifted before its convolution result is ever read. -/
theorem impulse_scenario_outputs_all_zero :
    PartitionedConvolution.new 4 = some conv4 ∧
    (conv4.load_impulse_response [1]).1 = .ok () ∧
    PartitionedConvolution.run (conv4.load_impulse_response [1]).2
      [1, 0, 0, 0, 0, 0, 0, 0] = [0, 0, 0, 0, 0, 0, 0, 0] := by
  refine ⟨by decide, rfl, by decide⟩
